import Mathlib

/-!
Verification development for a small PNG decoder (Rust, `src/png.rs`).

The decoder is shallowly embedded here: bytes are `Nat` (values < 256 in any
well-formed stream), byte buffers are `List Nat`, machine-integer wraparound is
written explicitly as `% 256` (`u8` arithmetic in the source wraps in release
builds), and every fallible operation returns `Except Failure _`.  A Rust
slice-index panic (out-of-bounds access on the inflated scanline buffer) is
modelled by the dedicated `Failure.outOfBounds` value, kept separate from the
`Error` enum of the decoder.

The zlib/DEFLATE decompressor is an external collaborator of the decoder
(`flate2::read::ZlibDecoder`); it is passed as an opaque-in-the-mathematical-
sense parameter `inflate : List Nat → Option (List Nat)` where `none` models
an underlying decompression failure surfacing as an `Io` error.
-/

set_option maxRecDepth 10000

/-- The error enum of the decoder (`enum Error` in `png.rs`).  The payload of the
`Io` variant is dropped, since the decoder never inspects it. -/
inductive Error where
  | ioError
  | invalidSignature
  | invalidStartingChunk
  | unimplemented
  | invalidIHDRLength
  | invalidPLTESize
  | unsupportedCompressionMethod
  | invalidFilterType
  | mismatchedCrc
deriving DecidableEq, Repr

/-- Outcome discriminator of a decoder step: either an `Error` value returned
by the source, or a Rust panic caused by an out-of-bounds slice index
(`idat_data[i]` in `Image::from_chunks`). -/
inductive Failure where
  | err (e : Error)
  | outOfBounds
deriving DecidableEq, Repr

/-- Model of `enum PixelType` from the source. -/
inductive PixelType where
  | rgb
  | rgba
deriving DecidableEq, Repr

/-- Model of `PixelType::bytes`. -/
def PixelType.bytes : PixelType → Nat
  | .rgb => 3
  | .rgba => 4

/-- Model of `enum Pixel` from the source: a fixed-size byte tuple. -/
inductive Pixel where
  | rgb (r g b : Nat)
  | rgba (r g b a : Nat)
deriving DecidableEq, Repr

/-- Model of `Pixel::raw`: the channel bytes of a pixel. -/
def Pixel.raw : Pixel → List Nat
  | .rgb r g b => [r, g, b]
  | .rgba r g b a => [r, g, b, a]

/-- Whether a pixel value is built from the constructor dictated by a
`PixelType`. -/
def Pixel.matchesType : Pixel → PixelType → Bool
  | .rgb _ _ _, .rgb => true
  | .rgba _ _ _ _, .rgba => true
  | _, _ => false

/-- Model of `struct Ihdr` from the source: the parsed 13-byte image header. -/
structure Ihdr where
  width : Nat
  height : Nat
  bit_depth : Nat
  colour_type : Nat
  compression_method : Nat
  filter_method : Nat
  interlace_method : Nat
deriving DecidableEq, Repr

/-- Model of `struct Plte`: a validated palette (parsed, never used downstream). -/
structure Plte where
  entries : List Pixel
deriving DecidableEq, Repr

/-- Model of `enum Chunk`: the typed chunks the decoder retains. -/
inductive Chunk where
  | ihdr (h : Ihdr)
  | plte (p : Plte)
  | idat (data : List Nat)
  | iend
deriving DecidableEq, Repr

/-- Model of `struct Image`: the decode result. -/
structure Image where
  width : Nat
  height : Nat
  pixel_type : PixelType
  pixels : List (List Pixel)
deriving DecidableEq, Repr

instance {ε α : Type _} [DecidableEq ε] [DecidableEq α] : DecidableEq (Except ε α) := fun x y =>
  match x, y with
  | .ok a, .ok b => if h : a = b then .isTrue (by subst h; rfl) else .isFalse (by simp [h])
  | .error e, .error f => if h : e = f then .isTrue (by subst h; rfl) else .isFalse (by simp [h])
  | .ok _, .error _ => .isFalse (by simp)
  | .error _, .ok _ => .isFalse (by simp)

/-- Big-endian interpretation of a byte list (`u32::from_be_bytes` for
4-byte lists of bytes). -/
def beU32 (bs : List Nat) : Nat :=
  bs.foldl (fun acc b => acc * 256 + b) 0

/-- Big-endian 4-byte encoding of a 32-bit value. -/
def be32enc (n : Nat) : List Nat :=
  [n / 2 ^ 24 % 256, n / 2 ^ 16 % 256, n / 2 ^ 8 % 256, n % 256]

/-- Model of `u8::abs_diff`: absolute difference of two byte values. -/
def absDiff (x y : Nat) : Nat :=
  if x ≤ y then y - x else x - y

/-- Model of `recon_a` from the source: left neighbour in the reconstruction buffer,
or 0 when the column lies in the first pixel of the row.  The buffer access
`recon[r * stride + c - bytes_per_pixel]` is modelled with `getD`; inside the
defilter loop the index is always in bounds (the buffer holds exactly
`r * stride + c` bytes when byte `(r, c)` is produced). -/
def recon_a (recon : List Nat) (stride bytes_per_pixel r c : Nat) : Nat :=
  if bytes_per_pixel ≤ c then recon.getD (r * stride + c - bytes_per_pixel) 0 else 0

/-- Model of `recon_b` from the source: the neighbour directly above, or 0 in row 0. -/
def recon_b (recon : List Nat) (stride r c : Nat) : Nat :=
  if 0 < r then recon.getD ((r - 1) * stride + c) 0 else 0

/-- Model of `recon_c` from the source: the upper-left diagonal neighbour, or 0 when
either the row above or the pixel to the left does not exist. -/
def recon_c (recon : List Nat) (stride bytes_per_pixel r c : Nat) : Nat :=
  if 0 < r ∧ bytes_per_pixel ≤ c then
    recon.getD ((r - 1) * stride + c - bytes_per_pixel) 0
  else 0

/-- Two-dimensional view of the flat reconstruction buffer: the byte of row
`r`, column `c`. -/
def byteAt (recon : List Nat) (stride r c : Nat) : Nat :=
  recon.getD (r * stride + c) 0

/-- Model of `paeth_predictor` from the source.  `a + b - c` is `u8` arithmetic, which
wraps modulo 256 (release-build semantics); for byte inputs the wrapped value
is `(a + b + 256 - c) % 256`.  `abs_diff` is `absDiff`. -/
def paeth_predictor (a b c : Nat) : Nat :=
  let p := (a + b + 256 - c) % 256
  let pa := absDiff p a
  let pb := absDiff p b
  let pc := absDiff p c
  if pa ≤ pb ∧ pa ≤ pc then a
  else if pb ≤ pc then b
  else c

/-- One reconstructed byte of the defilter engine: the `match filter_type`
expression in `Image::from_chunks`.  Every `u8` addition wraps modulo 256.
For the Average filter the source adds the two neighbours in `u8`, so the sum
itself is reduced modulo 256 before the halving.  `none` models the
`_ => return Err(Error::InvalidFilterType)` arm. -/
def reconByte (recon : List Nat) (stride bytes_per_pixel r c filter_type byte : Nat) :
    Option Nat :=
  match filter_type with
  | 0 => some byte
  | 1 => some ((byte + recon_a recon stride bytes_per_pixel r c) % 256)
  | 2 => some ((byte + recon_b recon stride r c) % 256)
  | 3 => some ((byte +
      ((recon_a recon stride bytes_per_pixel r c + recon_b recon stride r c) % 256) / 2) % 256)
  | 4 => some ((byte + paeth_predictor
      (recon_a recon stride bytes_per_pixel r c)
      (recon_b recon stride r c)
      (recon_c recon stride bytes_per_pixel r c)) % 256)
  | _ => none

/-- The inner (per-column) defilter loop.  `n` is the number of columns still
to process (`stride - c`), `c` the current column, `recon` the reconstruction
buffer so far, and the final list the unread tail of the inflated data.
Reading past the end of the data is a panicking `idat_data[i]` access in the
source,
modelled as `Failure.outOfBounds`. -/
def colsGo (bytes_per_pixel stride filter_type r : Nat) :
    Nat → Nat → List Nat → List Nat → Except Failure (List Nat × List Nat)
  | 0, _, recon, data => .ok (recon, data)
  | _ + 1, _, _, [] => .error .outOfBounds
  | n + 1, c, recon, byte :: rest =>
    match reconByte recon stride bytes_per_pixel r c filter_type byte with
    | some rb => colsGo bytes_per_pixel stride filter_type r n (c + 1) (recon ++ [rb]) rest
    | none => .error (.err .invalidFilterType)

/-- The outer (per-row) defilter loop: for each of the remaining `rows`
scanlines, read one filter-type byte and then `stride` data bytes. -/
def rowsGo (bytes_per_pixel stride : Nat) :
    Nat → Nat → List Nat → List Nat → Except Failure (List Nat)
  | 0, _, recon, _ => .ok recon
  | _ + 1, _, _, [] => .error .outOfBounds
  | rows + 1, r, recon, filter_type :: rest =>
    match colsGo bytes_per_pixel stride filter_type r stride 0 recon rest with
    | .ok (recon2, rest2) => rowsGo bytes_per_pixel stride rows (r + 1) recon2 rest2
    | .error e => .error e

/-- One assembled pixel: `bytes_per_pixel` consecutive reconstructed bytes
starting at `idx`.  After a successful defilter pass all indices are in
bounds, so `getD` agrees with the panicking index operation of the source. -/
def mkPixel (pt : PixelType) (recon : List Nat) (idx : Nat) : Pixel :=
  match pt with
  | .rgb => .rgb (recon.getD idx 0) (recon.getD (idx + 1) 0) (recon.getD (idx + 2) 0)
  | .rgba => .rgba (recon.getD idx 0) (recon.getD (idx + 1) 0)
      (recon.getD (idx + 2) 0) (recon.getD (idx + 3) 0)

/-- The pixel-assembly double loop of `Image::from_chunks`: a row-major
`height × width` grid sliced out of the reconstruction buffer. -/
def assemble (pt : PixelType) (width height bytes_per_pixel : Nat) (recon : List Nat) :
    List (List Pixel) :=
  (List.range height).map fun y =>
    (List.range width).map fun x =>
      mkPixel pt recon (y * (width * bytes_per_pixel) + x * bytes_per_pixel)

/-- Model of `Ihdr::pixel_type`: colour type 2 is truecolor, 6 truecolor-alpha, and
everything else is rejected as `Unimplemented`. -/
def Ihdr.pixel_type (h : Ihdr) : Except Failure PixelType :=
  match h.colour_type with
  | 2 => .ok .rgb
  | 6 => .ok .rgba
  | _ => .error (.err .unimplemented)

/-- Model of `Ihdr::from_data`: the 13-byte header payload. -/
def Ihdr.from_data (data : List Nat) : Except Failure Ihdr :=
  if data.length = 13 then
    .ok { width := beU32 (data.take 4)
          height := beU32 ((data.drop 4).take 4)
          bit_depth := data.getD 8 0
          colour_type := data.getD 9 0
          compression_method := data.getD 10 0
          filter_method := data.getD 11 0
          interlace_method := data.getD 12 0 }
  else .error (.err .invalidIHDRLength)

/-- Model of `Plte::from_data`: the payload must be a multiple of 3 bytes holding
between 1 and 256 RGB entries. -/
def Plte.from_data (data : List Nat) : Except Failure Plte :=
  let entry_count := data.length / 3
  if data.length % 3 ≠ 0 ∨ entry_count < 1 ∨ entry_count > 256 then
    .error (.err .invalidPLTESize)
  else
    .ok ⟨(List.range entry_count).map fun idx =>
      Pixel.rgb (data.getD (idx * 3) 0) (data.getD (idx * 3 + 1) 0) (data.getD (idx * 3 + 2) 0)⟩

/-- The byte values of the four recognized type codes and the signature. -/
def IHDR_TYPE : List Nat := [73, 72, 68, 82]

def PLTE_TYPE : List Nat := [80, 76, 84, 69]

def IDAT_TYPE : List Nat := [73, 68, 65, 84]

def IEND_TYPE : List Nat := [73, 69, 78, 68]

def PNG_SIGNATURE : List Nat := [137, 80, 78, 71, 13, 10, 26, 10]

/-- Model of `Chunk::from_raw`: dispatch on the type code; unknown codes are dropped
when ancillary (lowercase first byte) and fatal when critical. -/
def Chunk.from_raw (type_bytes data : List Nat) : Except Failure (Option Chunk) :=
  if type_bytes = IHDR_TYPE then (Ihdr.from_data data).map fun h => some (.ihdr h)
  else if type_bytes = PLTE_TYPE then (Plte.from_data data).map fun p => some (.plte p)
  else if type_bytes = IDAT_TYPE then .ok (some (.idat data))
  else if type_bytes = IEND_TYPE then .ok (some .iend)
  else if 97 ≤ type_bytes.getD 0 0 ∧ type_bytes.getD 0 0 ≤ 122 then .ok none
  else .error (.err .unimplemented)

/-- Model of `Read::read_exact` over a byte-list stream: take exactly `n` bytes or
surface an I/O failure. -/
def readExact (n : Nat) (s : List Nat) : Except Failure (List Nat × List Nat) :=
  if n ≤ s.length then .ok (s.take n, s.drop n) else .error (.err .ioError)

/-- The CRC-32 polynomial used by zlib (reflected form), as in
`flate2::Crc`. -/
def CRC_POLY : Nat := 0xEDB88320

/-- One bit step of the CRC-32 computation. -/
def crcStep (s : Nat) : Nat :=
  if s % 2 = 1 then s / 2 ^^^ CRC_POLY else s / 2

/-- Absorb one byte into the CRC state (bitwise form of the table-driven
update in `flate2::Crc`). -/
def crcByte (s b : Nat) : Nat :=
  crcStep^[8] (s ^^^ b)

/-- CRC-32 of a byte list, exactly as `flate2::Crc` computes it (initial
state `0xFFFFFFFF`, final complement). -/
def crc32 (bytes : List Nat) : Nat :=
  (bytes.foldl crcByte 0xFFFFFFFF) ^^^ 0xFFFFFFFF

/-- Model of `Chunk::read`: one framed record — 4-byte big-endian length, 4-byte type
code, payload, 4-byte big-endian CRC over type code followed by payload.  The
CRC comparison happens before the chunk is interpreted by `Chunk::from_raw`. -/
def Chunk.read (s : List Nat) : Except Failure (Option Chunk × List Nat) :=
  (readExact 4 s).bind fun lp =>
  (readExact 4 lp.2).bind fun tp =>
  (readExact (beU32 lp.1) tp.2).bind fun dp =>
  (readExact 4 dp.2).bind fun cp =>
  if beU32 cp.1 = crc32 (tp.1 ++ dp.1) then
    (Chunk.from_raw tp.1 dp.1).map fun c => (c, cp.2)
  else
    .error (.err .mismatchedCrc)

/-- The chunk-reading loop of `Image::read`: collect chunks until the
terminator, keeping the terminator itself as the last element.  The loop in
the source is unbounded; here `fuel` bounds the recursion, and the caller
passes one more than the stream length, which can never be exhausted because
every successful `Chunk.read` consumes at least 12 bytes.  The fuel-exhausted
branch reuses `Failure.outOfBounds` as an unreachable artifact. -/
def readChunksF (fuel : Nat) (s : List Nat) : Except Failure (List Chunk × List Nat) :=
  match fuel with
  | 0 => .error .outOfBounds
  | fuel + 1 =>
    match Chunk.read s with
    | .error e => .error e
    | .ok (none, rest) => readChunksF fuel rest
    | .ok (some c, rest) =>
      if c = Chunk.iend then .ok ([c], rest)
      else (readChunksF fuel rest).map fun pr => (c :: pr.1, pr.2)

/-- The leading-`PLTE` pop in `Image::from_chunks` (the palette value is
bound but never used by the source, so only the removal matters). -/
def popPlte (chunks : List Chunk) : List Chunk :=
  match chunks with
  | .plte _ :: rest => rest
  | _ => chunks

/-- The compressed-data aggregator: payloads of all `IDAT` chunks,
concatenated in encounter order. -/
def collectIdat (chunks : List Chunk) : List Nat :=
  (chunks.filterMap fun c => match c with | .idat d => some d | _ => none).flatten

/-- Model of `Image::from_chunks`, parameterized by the external zlib decompressor.
The chunk list must start with the header; an optional palette follows; all
compressed-data payloads are concatenated, inflated, defiltered row by row,
and sliced into pixels.  The source computes `stride = width * bytes_per_pixel`
in `u32`, which wraps in release builds, so the model reduces it modulo
`2 ^ 32`. -/
def from_chunks (inflate : List Nat → Option (List Nat)) (chunks : List Chunk) :
    Except Failure Image :=
  match chunks with
  | .ihdr ihdr :: rest =>
    let rest2 := popPlte rest
    let idat_data_compressed := collectIdat rest2
    match ihdr.pixel_type with
    | .error e => .error e
    | .ok pixel_type =>
      let bytes_per_pixel := pixel_type.bytes
      if ihdr.compression_method = 0 then
        match inflate idat_data_compressed with
        | none => .error (.err .ioError)
        | some idat_data =>
          let stride := ihdr.width * bytes_per_pixel % 2 ^ 32
          match rowsGo bytes_per_pixel stride ihdr.height 0 [] idat_data with
          | .error e => .error e
          | .ok recon =>
            .ok { width := ihdr.width
                  height := ihdr.height
                  pixel_type := pixel_type
                  pixels := assemble pixel_type ihdr.width ihdr.height bytes_per_pixel recon }
      else .error (.err .unsupportedCompressionMethod)
  | _ => .error (.err .invalidStartingChunk)

/-- Model of `Image::read`, parameterized by the external zlib decompressor: check the
8-byte signature, run the chunk loop to the terminator, and assemble. -/
def Image.read (inflate : List Nat → Option (List Nat)) (s : List Nat) :
    Except Failure Image :=
  (readExact 8 s).bind fun sp =>
  if sp.1 = PNG_SIGNATURE then
    (readChunksF (sp.2.length + 1) sp.2).bind fun cp =>
    from_chunks inflate cp.1
  else .error (.err .invalidSignature)

/-! ## Spec-side definitions (written from the words of the specification) -/

/-- Modelled from the spec (§4.7 Paeth): compute `p = a + b − c_diag` with
8-bit wraparound, take the absolute differences to `a`, `b`, `c_diag`, and
return whichever of the three has the smallest difference, breaking ties in
the order `a`, then `b`, then `c_diag`. -/
def paethSpecChoice (a b c_diag : Nat) : Nat :=
  let p := (a + b + 256 - c_diag) % 256
  let pa := absDiff p a
  let pb := absDiff p b
  let pc := absDiff p c_diag
  let m := min pa (min pb pc)
  if pa = m then a else if pb = m then b else c_diag

/-- Well-formedness of a decoded image as stated by the data model of the spec:
outer length = height, inner length = width, and every pixel is built by the
constructor dictated by the `PixelType` of the image, carrying its channel count. -/
def imageWf (img : Image) : Prop :=
  img.pixels.length = img.height ∧
  ∀ row ∈ img.pixels, row.length = img.width ∧
    ∀ px ∈ row, px.matchesType img.pixel_type = true ∧ px.raw.length = img.pixel_type.bytes

/-- Whether a chunk list starts with a header chunk. -/
def headIsIhdr (chunks : List Chunk) : Bool :=
  match chunks with
  | .ihdr _ :: _ => true
  | _ => false

/-- Flip bit `i` of the byte at position `j`. -/
def flipByteAt (l : List Nat) (j i : Nat) : List Nat :=
  l.set j (l.getD j 0 ^^^ 2 ^ i)

/-- The concatenated wire form of a list of scanlines, each given as a
filter-type byte paired with its data bytes. -/
def rowsBytes (rs : List (Nat × List Nat)) : List Nat :=
  (rs.map fun p => p.1 :: p.2).flatten

/-! ## C2: the Paeth predictor -/

/-- C2: for all 8-bit inputs, `paeth_predictor` — which computes
`p = a + b − c_diag` with 8-bit wraparound and the three absolute
differences — returns whichever of `a`, `b`, `c_diag` has the smallest
difference, breaking ties in the order `a`, then `b`, then `c_diag`
(formalized by `paethSpecChoice`, written from the wording of the spec). -/
theorem claim_C2_paeth_matches_spec (a b c : Nat)
    (ha : a < 256) (hb : b < 256) (hc : c < 256) :
    paeth_predictor a b c = paethSpecChoice a b c := by
  simp only [paeth_predictor, paethSpecChoice]
  generalize absDiff ((a + b + 256 - c) % 256) a = pa
  generalize absDiff ((a + b + 256 - c) % 256) b = pb
  generalize absDiff ((a + b + 256 - c) % 256) c = pc
  split_ifs <;> omega

/-- Concrete instance of C2 at `a = 3`, `b = 200`, `c_diag = 150`. -/
theorem claim_C2_paeth_witness :
    (3 : Nat) < 256 ∧ paeth_predictor 3 200 150 = paethSpecChoice 3 200 150 :=
  ⟨by decide, claim_C2_paeth_matches_spec 3 200 150 (by decide) (by decide) (by decide)⟩

/-! ## C3: neighbour selection for defiltering -/

/-- C3: the left neighbour is the reconstructed byte at `(r, c − bpp)` when
`c ≥ bpp` and 0 otherwise; the above neighbour is the byte at `(r − 1, c)`
when `r > 0` and 0 otherwise; and the diagonal neighbour is the byte at
`(r − 1, c − bpp)` when both hold, and 0 otherwise — where `byteAt` is the
two-dimensional view of the flat reconstruction buffer. -/
theorem claim_C3_neighbor_selection (recon : List Nat) (stride bpp r c : Nat) :
    recon_a recon stride bpp r c = (if bpp ≤ c then byteAt recon stride r (c - bpp) else 0) ∧
    recon_b recon stride r c = (if 0 < r then byteAt recon stride (r - 1) c else 0) ∧
    recon_c recon stride bpp r c =
      (if 0 < r ∧ bpp ≤ c then byteAt recon stride (r - 1) (c - bpp) else 0) := by
  refine ⟨?_, ?_, ?_⟩
  · by_cases h : bpp ≤ c
    · simp only [recon_a, byteAt, if_pos h]
      congr 1
      omega
    · simp [recon_a, h]
  · simp [recon_b, byteAt]
  · by_cases h : 0 < r ∧ bpp ≤ c
    · simp only [recon_c, byteAt, if_pos h]
      congr 1
      omega
    · simp [recon_c, h]

/-! ## C1: the Average filter wraps the neighbour sum in 8 bits -/

/-- The decompressor stub for the C1 evaluation: a 2×2 truecolor image whose
first row is all 200 (filter None) and whose second row is all zero bytes
under the Average filter, so that at row 1 column 3 the neighbours are
`a = 100` and `b = 200` with `a + b = 300 > 255`. -/
def c1Inflate : List Nat → Option (List Nat) :=
  fun _ => some [0, 200, 200, 200, 200, 200, 200, 3, 0, 0, 0, 0, 0, 0]

def c1Chunks : List Chunk :=
  [.ihdr ⟨2, 2, 8, 2, 0, 0, 0⟩, .idat [0]]

/-- C1 fails on the code: with neighbours `a = 100`, `b = 200`
(`a + b = 300 > 255`) and filtered byte 0, the decoder produces the byte
`(0 + (300 % 256) / 2) % 256 = 22` — the `u8` sum wraps before the halving —
whereas the wide-intermediate prediction of the claim is
`(0 + 300 / 2) % 256 = 150`. -/
theorem claim_C1_average_wraps_before_halving :
    from_chunks c1Inflate c1Chunks =
      .ok ⟨2, 2, .rgb, [[.rgb 200 200 200, .rgb 200 200 200],
                        [.rgb 100 100 100, .rgb 22 22 22]]⟩ ∧
    ((0 : Nat) + (100 + 200) / 2) % 256 = 150 ∧ (22 : Nat) ≠ 150 := by
  refine ⟨by decide, by decide, by decide⟩

/-! ## C4: bit depth and interlace method are never validated -/

def c4Inflate : List Nat → Option (List Nat) := fun _ => some [0, 1, 2, 3]

def c4Chunks : List Chunk := [.ihdr ⟨1, 1, 16, 2, 0, 0, 1⟩, .idat [9, 9]]

/-- C4 fails on the code: a header declaring bit depth 16 and a nonzero
(interlaced) interlace method decodes successfully — the parsed `bit_depth`
and `interlace_method` fields are never consulted — instead of failing with
an explicit error. -/
theorem claim_C4_unvalidated_bit_depth_interlace :
    from_chunks c4Inflate c4Chunks = .ok ⟨1, 1, .rgb, [[.rgb 1 2 3]]⟩ := by
  decide

/-! ## C5: invalid filter-type bytes -/

def c5Inflate : List Nat → Option (List Nat) := fun _ => some [9]

def c5Chunks : List Chunk := [.ihdr ⟨0, 1, 8, 2, 0, 0, 0⟩, .idat []]

/-- C5 fails on the code for degenerate geometry: a 0×1 image whose single
scanline carries the out-of-range filter-type byte 9 decodes successfully —
the filter byte is matched inside the per-column loop, which never runs when
`stride = 0` — instead of failing with `InvalidFilterType`. -/
theorem claim_C5_counterexample_width_zero :
    from_chunks c5Inflate c5Chunks = .ok ⟨0, 1, .rgb, [[]]⟩ ∧
    from_chunks c5Inflate c5Chunks ≠ .error (.err .invalidFilterType) := by
  refine ⟨by decide, by decide⟩

/-- A valid filter-type byte always yields a reconstructed byte. -/
theorem reconByte_isSome_of_le_four (recon : List Nat) (stride bpp r c ft byte : Nat)
    (hft : ft ≤ 4) : ∃ v, reconByte recon stride bpp r c ft byte = some v := by
  interval_cases ft <;> exact ⟨_, rfl⟩

/-- An out-of-range filter-type byte yields no reconstructed byte. -/
theorem reconByte_none_of_ge_five (recon : List Nat) (stride bpp r c ft byte : Nat)
    (hft : 5 ≤ ft) : reconByte recon stride bpp r c ft byte = none := by
  match ft, hft with
  | n + 5, _ => rfl

/-- Under a valid filter type, the per-column loop consumes exactly its
`n` data bytes and succeeds. -/
theorem colsGo_ok_of_valid (bpp stride ft r : Nat) (hft : ft ≤ 4) :
    ∀ (n c : Nat) (recon data rest : List Nat), data.length = n →
      ∃ recon2, colsGo bpp stride ft r n c recon (data ++ rest) = .ok (recon2, rest) := by
  intro n
  induction n with
  | zero =>
    intro c recon data rest hlen
    rw [List.length_eq_zero] at hlen
    subst hlen
    exact ⟨recon, rfl⟩
  | succ n ih =>
    intro c recon data rest hlen
    match data, hlen with
    | byte :: data', hlen =>
      simp only [List.length_cons, Nat.succ.injEq] at hlen
      obtain ⟨v, hv⟩ := reconByte_isSome_of_le_four recon stride bpp r c ft byte hft
      obtain ⟨recon2, h2⟩ := ih (c + 1) (recon ++ [v]) data' rest hlen
      refine ⟨recon2, ?_⟩
      simp only [List.cons_append, colsGo, hv]
      exact h2

/-- When the filter byte is out of range and at least one data byte follows,
the per-column loop aborts with `InvalidFilterType` before reconstructing any
byte of the row (`0 < n`: the row has at least one column). -/
theorem colsGo_invalid_ft (bpp stride ft r n c : Nat) (recon : List Nat)
    (byte : Nat) (rest : List Nat) (hft : 5 ≤ ft) (hn : 0 < n) :
    colsGo bpp stride ft r n c recon (byte :: rest) = .error (.err .invalidFilterType) := by
  match n, hn with
  | n + 1, _ =>
    simp only [colsGo, reconByte_none_of_ge_five recon stride bpp r c ft byte hft]

/-- Rows with valid filter bytes and full data are processed successfully;
the first row with an out-of-range filter byte aborts the whole pass. -/
theorem rowsGo_invalid_ft (bpp stride : Nat) (hstride : 0 < stride) (ftBad b : Nat)
    (tail : List Nat) (hbad : 5 ≤ ftBad) :
    ∀ (rs : List (Nat × List Nat)) (h r : Nat) (recon : List Nat),
      (∀ p ∈ rs, p.1 ≤ 4 ∧ p.2.length = stride) → rs.length < h →
      rowsGo bpp stride h r recon (rowsBytes rs ++ ftBad :: b :: tail) =
        .error (.err .invalidFilterType) := by
  intro rs
  induction rs with
  | nil =>
    intro h r recon _ hlen
    match h, hlen with
    | h + 1, _ =>
      simp only [rowsBytes, List.map_nil, List.flatten_nil, List.nil_append, rowsGo,
        colsGo_invalid_ft bpp stride ftBad r stride 0 recon b tail hbad hstride]
  | cons p rs ih =>
    intro h r recon hgood hlen
    match h, hlen with
    | h + 1, hlen =>
      obtain ⟨hft, hplen⟩ := hgood p (by simp)
      obtain ⟨recon2, hcols⟩ := colsGo_ok_of_valid bpp stride p.1 r hft stride 0 recon p.2
        (rowsBytes rs ++ ftBad :: b :: tail) hplen
      have : rowsBytes (p :: rs) ++ ftBad :: b :: tail =
          p.1 :: (p.2 ++ (rowsBytes rs ++ ftBad :: b :: tail)) := by
        simp [rowsBytes]
      rw [this]
      simp only [rowsGo, hcols]
      exact ih h (r + 1) recon2 (fun q hq => hgood q (by simp [hq]))
        (by simp only [List.length_cons] at hlen; omega)

/-- C5 amended: provided the image width is positive (so the row has at least
one column — for width 0 the filter byte is never inspected, see the
counterexample), the stride `width * bytesPerPixel` fits in 32 bits (the
source computes it in `u32`: on overflow the release build wraps it — to 0 at
width `2 ^ 30` with Rgba — so the filter byte is again never inspected, and
the debug build panics), and the first data byte of the offending row is
present in the inflated stream, a decode whose scanlines carry an
out-of-range filter-type byte fails with `InvalidFilterType` at the first
such row, with no byte of that row reconstructed. -/
theorem claim_C5_invalid_filter_aborts (inflate : List Nat → Option (List Nat))
    (ihdr : Ihdr) (rest : List Chunk) (rs : List (Nat × List Nat))
    (ftBad b : Nat) (tail : List Nat)
    (hct : ihdr.colour_type = 2 ∨ ihdr.colour_type = 6)
    (hcm : ihdr.compression_method = 0)
    (hw : 0 < ihdr.width)
    (hfit : ihdr.width * (match ihdr.colour_type with | 2 => 3 | _ => 4) < 2 ^ 32)
    (hinf : inflate (collectIdat (popPlte rest)) =
      some (rowsBytes rs ++ ftBad :: b :: tail))
    (hgood : ∀ p ∈ rs, p.1 ≤ 4 ∧
      p.2.length = ihdr.width * (match ihdr.colour_type with | 2 => 3 | _ => 4))
    (hbad : 5 ≤ ftBad)
    (hlen : rs.length < ihdr.height) :
    from_chunks inflate (.ihdr ihdr :: rest) = .error (.err .invalidFilterType) := by
  rcases hct with hct | hct
  · have hfit3 : ihdr.width * 3 < 2 ^ 32 := by simpa [hct] using hfit
    have hmod : ihdr.width * 3 % 4294967296 = ihdr.width * 3 := Nat.mod_eq_of_lt (by omega)
    have hst : 0 < ihdr.width * 3 := by omega
    have hrw := rowsGo_invalid_ft 3 (ihdr.width * 3) hst ftBad b tail hbad rs ihdr.height 0 []
      (by simpa [hct] using hgood) hlen
    simp [from_chunks, Ihdr.pixel_type, hct, hcm, hinf, PixelType.bytes, hmod, hrw]
  · have hfit4 : ihdr.width * 4 < 2 ^ 32 := by simpa [hct] using hfit
    have hmod : ihdr.width * 4 % 4294967296 = ihdr.width * 4 := Nat.mod_eq_of_lt (by omega)
    have hst : 0 < ihdr.width * 4 := by omega
    have hrw := rowsGo_invalid_ft 4 (ihdr.width * 4) hst ftBad b tail hbad rs ihdr.height 0 []
      (by simpa [hct] using hgood) hlen
    simp [from_chunks, Ihdr.pixel_type, hct, hcm, hinf, PixelType.bytes, hmod, hrw]

def c5wInflate : List Nat → Option (List Nat) :=
  fun _ => some (rowsBytes [(0, [1, 2, 3])] ++ 7 :: 0 :: [])

/-- Concrete instance of the amended C5: a 1×2 truecolor image whose first
row uses filter None and whose second row carries filter byte 7. -/
theorem claim_C5_invalid_filter_witness :
    from_chunks c5wInflate [.ihdr ⟨1, 2, 8, 2, 0, 0, 0⟩, .idat []] =
      .error (.err .invalidFilterType) :=
  claim_C5_invalid_filter_aborts c5wInflate ⟨1, 2, 8, 2, 0, 0, 0⟩ [.idat []]
    [(0, [1, 2, 3])] 7 0 [] (Or.inl rfl) rfl (by decide) (by decide) rfl (by decide)
    (by decide) (by decide)

/-! ## C7: splitting IDAT payloads -/

/-- Splitting one compressed-data payload into two adjacent chunks leaves the
aggregated byte buffer unchanged. -/
theorem collectIdat_split (zs ys : List Chunk) (d1 d2 : List Nat) :
    collectIdat (zs ++ .idat (d1 ++ d2) :: ys) = collectIdat (zs ++ .idat d1 :: .idat d2 :: ys) := by
  simp [collectIdat, List.filterMap_append]

/-- C7: a chunk sequence carrying the compressed bytes split across two
adjacent IDAT chunks decodes to exactly the same result as the same bytes in
a single IDAT chunk, wherever the chunk sits in the stream — the aggregator
concatenates payloads in encounter order. -/
theorem claim_C7_idat_split_equivalence (inflate : List Nat → Option (List Nat))
    (xs ys : List Chunk) (d1 d2 : List Nat) :
    from_chunks inflate (xs ++ .idat (d1 ++ d2) :: ys) =
      from_chunks inflate (xs ++ .idat d1 :: .idat d2 :: ys) := by
  match xs with
  | [] => rfl
  | .plte p :: xs' => rfl
  | .idat d :: xs' => rfl
  | .iend :: xs' => rfl
  | .ihdr h :: xs' =>
    simp only [List.cons_append, from_chunks]
    have hpop : ∃ zs, popPlte (xs' ++ .idat (d1 ++ d2) :: ys) = zs ++ .idat (d1 ++ d2) :: ys ∧
        popPlte (xs' ++ .idat d1 :: .idat d2 :: ys) = zs ++ .idat d1 :: .idat d2 :: ys := by
      match xs' with
      | [] => exact ⟨[], rfl, rfl⟩
      | .plte p :: zs => exact ⟨zs, rfl, rfl⟩
      | .ihdr h' :: zs => exact ⟨.ihdr h' :: zs, rfl, rfl⟩
      | .idat d :: zs => exact ⟨.idat d :: zs, rfl, rfl⟩
      | .iend :: zs => exact ⟨.iend :: zs, rfl, rfl⟩
    obtain ⟨zs, h1, h2⟩ := hpop
    rw [h1, h2, collectIdat_split]

/-! ## Generic `Except` plumbing -/

theorem exceptBind_ok {ε α β : Type _} {x : Except ε α} {f : α → Except ε β} {v : β}
    (h : x.bind f = .ok v) : ∃ a, x = .ok a ∧ f a = .ok v := by
  cases x with
  | error e => simp [Except.bind] at h
  | ok a => exact ⟨a, rfl, by simpa [Except.bind] using h⟩

theorem exceptMap_ok {ε α β : Type _} {x : Except ε α} {f : α → β} {v : β}
    (h : x.map f = .ok v) : ∃ a, x = .ok a ∧ f a = v := by
  cases x with
  | error e => simp [Except.map] at h
  | ok a => exact ⟨a, rfl, by simpa [Except.map] using h⟩

theorem bindOkL {ε α β : Type _} (a : α) (f : α → Except ε β) :
    (Except.ok a : Except ε α).bind f = f a := rfl

theorem bindErrL {ε α β : Type _} (e : ε) (f : α → Except ε β) :
    (Except.error e : Except ε α).bind f = .error e := rfl

theorem mapOkL {ε α β : Type _} (f : α → β) (a : α) :
    (Except.ok a : Except ε α).map f = .ok (f a) := rfl

/-! ## Stream-reading lemmas -/

/-- Reading exactly the length of a known prefix yields that prefix. -/
theorem readExact_whole (l r : List Nat) (n : Nat) (hn : l.length = n) :
    readExact n (l ++ r) = .ok (l, r) := by
  subst hn
  simp [readExact, List.take_append_of_le_length, List.drop_append_of_le_length]

/-- A successful exact read is unaffected by extra bytes appended to the
stream; the extra bytes end up in the leftover. -/
theorem readExact_append {n : Nat} {s : List Nat} {p : List Nat × List Nat} (e : List Nat)
    (h : readExact n s = .ok p) : readExact n (s ++ e) = .ok (p.1, p.2 ++ e) := by
  unfold readExact at h ⊢
  split at h
  · next hle =>
    obtain rfl : (s.take n, s.drop n) = p := by simpa using h
    rw [if_pos (by simp; omega)]
    simp [List.take_append_of_le_length hle, List.drop_append_of_le_length hle]
  · simp at h

/-- A successful chunk read is unaffected by extra bytes appended to the
stream. -/
theorem chunkRead_append {s s' : List Nat} {c? : Option Chunk} (e : List Nat)
    (h : Chunk.read s = .ok (c?, s')) : Chunk.read (s ++ e) = .ok (c?, s' ++ e) := by
  unfold Chunk.read at h ⊢
  obtain ⟨p1, h1, h⟩ := exceptBind_ok h
  obtain ⟨p2, h2, h⟩ := exceptBind_ok h
  obtain ⟨p3, h3, h⟩ := exceptBind_ok h
  obtain ⟨p4, h4, h⟩ := exceptBind_ok h
  rw [readExact_append e h1, bindOkL]
  dsimp only
  rw [readExact_append e h2, bindOkL]
  dsimp only
  rw [readExact_append e h3, bindOkL]
  dsimp only
  rw [readExact_append e h4, bindOkL]
  dsimp only
  split at h
  · next hcrc =>
    rw [if_pos hcrc]
    obtain ⟨c, hc, hcv⟩ := exceptMap_ok h
    rw [hc, mapOkL]
    injection hcv with hcv1 hcv2
    subst hcv1
    subst hcv2
    rfl
  · simp at h

/-- The chunk loop is unaffected by extra bytes appended after the bytes it
actually consumes. -/
theorem readChunksF_append (e : List Nat) :
    ∀ (fuel : Nat) (s : List Nat) (cs : List Chunk) (rest : List Nat),
      readChunksF fuel s = .ok (cs, rest) →
      readChunksF fuel (s ++ e) = .ok (cs, rest ++ e) := by
  intro fuel
  induction fuel with
  | zero => intro s cs rest h; simp [readChunksF] at h
  | succ fuel ih =>
    intro s cs rest h
    unfold readChunksF at h ⊢
    cases hc : Chunk.read s with
    | error err => rw [hc] at h; simp at h
    | ok pr =>
      obtain ⟨c?, s'⟩ := pr
      rw [hc] at h
      rw [chunkRead_append e hc]
      cases c? with
      | none => exact ih s' cs rest h
      | some c =>
        dsimp only at h ⊢
        by_cases hce : c = Chunk.iend
        · rw [if_pos hce] at h ⊢
          injection h with h
          injection h with h1 h2
          subst h1
          subst h2
          rfl
        · rw [if_neg hce] at h ⊢
          obtain ⟨pr', hrec, hv⟩ := exceptMap_ok h
          rw [ih s' pr'.1 pr'.2 hrec, mapOkL]
          have hv' : (c :: pr'.1, pr'.2) = (cs, rest) := hv
          injection hv' with hv1 hv2
          rw [hv1, hv2]

/-- A successful chunk loop stays successful with any additional fuel. -/
theorem readChunksF_mono :
    ∀ (fuel k : Nat) (s : List Nat) (r : List Chunk × List Nat),
      readChunksF fuel s = .ok r → readChunksF (fuel + k) s = .ok r := by
  intro fuel
  induction fuel with
  | zero => intro k s r h; simp [readChunksF] at h
  | succ fuel ih =>
    intro k s r h
    have hfk : fuel + 1 + k = (fuel + k) + 1 := by omega
    rw [hfk]
    unfold readChunksF at h ⊢
    cases hc : Chunk.read s with
    | error err => rw [hc] at h; exact h
    | ok pr =>
      obtain ⟨c?, s'⟩ := pr
      rw [hc] at h
      cases c? with
      | none => exact ih k s' r h
      | some c =>
        dsimp only at h ⊢
        by_cases hce : c = Chunk.iend
        · rw [if_pos hce] at h ⊢
          exact h
        · rw [if_neg hce] at h ⊢
          obtain ⟨pr', hrec, hv⟩ := exceptMap_ok h
          rw [ih k s' pr' hrec, mapOkL, hv]

/-! ## C8: the first chunk must be the header -/

/-- Model of `Image::from_chunks` rejects any chunk list that does not start with a
header chunk (including the empty list). -/
theorem from_chunks_error_of_not_ihdr (inflate : List Nat → Option (List Nat))
    (chunks : List Chunk) (h : headIsIhdr chunks = false) :
    from_chunks inflate chunks = .error (.err .invalidStartingChunk) := by
  match chunks with
  | [] => rfl
  | .plte _ :: _ => rfl
  | .idat _ :: _ => rfl
  | .iend :: _ => rfl
  | .ihdr _ :: _ => simp [headIsIhdr] at h

/-- C8: whenever the chunk-reading loop completes and the first chunk it
produced after the 8-byte signature is not a header chunk, the decode fails
with `InvalidStartingChunk`. -/
theorem claim_C8_non_ihdr_first (inflate : List Nat → Option (List Nat))
    (s1 : List Nat) (cs : List Chunk) (rest : List Nat)
    (hrc : readChunksF (s1.length + 1) s1 = .ok (cs, rest))
    (hni : headIsIhdr cs = false) :
    Image.read inflate (PNG_SIGNATURE ++ s1) = .error (.err .invalidStartingChunk) := by
  unfold Image.read
  rw [readExact_whole PNG_SIGNATURE s1 8 rfl, bindOkL]
  dsimp only
  rw [if_pos rfl, hrc, bindOkL]
  exact from_chunks_error_of_not_ihdr inflate cs hni

/-- A well-formed chunk record for a type code and payload: 4-byte big-endian
length, type code, payload, 4-byte big-endian CRC-32 of type code and
payload. -/
def mkChunk (tb data : List Nat) : List Nat :=
  be32enc data.length ++ tb ++ data ++ be32enc (crc32 (tb ++ data))

/-- Concrete instance of C8: a stream whose only chunk is the terminator. -/
theorem claim_C8_witness :
    Image.read (fun _ => none) (PNG_SIGNATURE ++ mkChunk IEND_TYPE []) =
      .error (.err .invalidStartingChunk) :=
  claim_C8_non_ihdr_first (fun _ => none) (mkChunk IEND_TYPE []) [.iend] []
    (by decide) (by decide)

/-! ## C9: well-formedness of every decoded image -/

/-- The pixel grid produced by the assembler always has the declared shape. -/
theorem assemble_wf (pt : PixelType) (w h : Nat) (recon : List Nat) :
    imageWf ⟨w, h, pt, assemble pt w h pt.bytes recon⟩ := by
  refine ⟨by simp [assemble], ?_⟩
  intro row hrow
  simp only [assemble, List.mem_map, List.mem_range] at hrow
  obtain ⟨y, hy, rfl⟩ := hrow
  refine ⟨by simp, ?_⟩
  intro px hpx
  simp only [List.mem_map, List.mem_range] at hpx
  obtain ⟨x, hx, rfl⟩ := hpx
  cases pt <;> simp [mkPixel, Pixel.matchesType, Pixel.raw, PixelType.bytes]

/-- Structure of every successful `from_chunks` result: the image is built
from the parsed header, its pixel type, and an assembled pixel grid. -/
theorem from_chunks_ok_cases (inflate : List Nat → Option (List Nat))
    (chunks : List Chunk) (img : Image) (hok : from_chunks inflate chunks = .ok img) :
    ∃ (ihdr : Ihdr) (pt : PixelType) (recon : List Nat),
      img = ⟨ihdr.width, ihdr.height, pt, assemble pt ihdr.width ihdr.height pt.bytes recon⟩ := by
  match chunks with
  | [] => simp [from_chunks] at hok
  | .plte _ :: _ => simp [from_chunks] at hok
  | .idat _ :: _ => simp [from_chunks] at hok
  | .iend :: _ => simp [from_chunks] at hok
  | .ihdr ihdr :: rest =>
    simp only [from_chunks] at hok
    cases hpt : ihdr.pixel_type with
    | error e => rw [hpt] at hok; simp at hok
    | ok pt =>
      rw [hpt] at hok
      dsimp only at hok
      by_cases hcm : ihdr.compression_method = 0
      · rw [if_pos hcm] at hok
        cases hinf : inflate (collectIdat (popPlte rest)) with
        | none => rw [hinf] at hok; simp at hok
        | some idat =>
          rw [hinf] at hok
          dsimp only at hok
          cases hrows : rowsGo pt.bytes (ihdr.width * pt.bytes % 2 ^ 32) ihdr.height 0 [] idat with
          | error e => rw [hrows] at hok; simp at hok
          | ok recon =>
            rw [hrows] at hok
            dsimp only at hok
            injection hok with h
            exact ⟨ihdr, pt, recon, h.symm⟩
      · rw [if_neg hcm] at hok; simp at hok

/-- C9: every image returned by a successful decode is well-formed — the
outer length of the pixel grid equals the height field of the image, every
row has length equal to its width field, and every pixel is built from the
constructor of its `PixelType`, carrying exactly that channel count (3 bytes
for Rgb, 4 for Rgba). -/
theorem claim_C9_image_well_formed (inflate : List Nat → Option (List Nat))
    (chunks : List Chunk) (img : Image)
    (hok : from_chunks inflate chunks = .ok img) : imageWf img := by
  obtain ⟨ihdr, pt, recon, rfl⟩ := from_chunks_ok_cases inflate chunks img hok
  exact assemble_wf pt ihdr.width ihdr.height recon

def c9Inflate : List Nat → Option (List Nat) := fun _ => some [0, 5, 6, 7]

def c9Chunks : List Chunk := [.ihdr ⟨1, 1, 8, 2, 0, 0, 0⟩, .idat [3]]

/-- Concrete instance of C9 on a successful 1×1 decode. -/
theorem claim_C9_witness : imageWf ⟨1, 1, .rgb, [[.rgb 5 6 7]]⟩ :=
  claim_C9_image_well_formed c9Inflate c9Chunks ⟨1, 1, .rgb, [[.rgb 5 6 7]]⟩ (by decide)

/-! ## C10: bytes after the terminator chunk are never consumed -/

/-- C10: appending arbitrary extra bytes after a stream on which the decode
succeeds leaves the decode result unchanged — the decoder consumes the stream
only up to and including the terminator chunk. -/
theorem claim_C10_trailing_bytes_ignored (inflate : List Nat → Option (List Nat))
    (s extra : List Nat) (img : Image) (h : Image.read inflate s = .ok img) :
    Image.read inflate (s ++ extra) = .ok img := by
  unfold Image.read at h ⊢
  obtain ⟨sp, h8, h⟩ := exceptBind_ok h
  rw [readExact_append extra h8, bindOkL]
  dsimp only
  split at h
  · next hsig =>
    rw [if_pos hsig]
    obtain ⟨cp, hrc, hfc⟩ := exceptBind_ok h
    have h1 : readChunksF (sp.2.length + 1) (sp.2 ++ extra) = .ok (cp.1, cp.2 ++ extra) :=
      readChunksF_append extra (sp.2.length + 1) sp.2 cp.1 cp.2 hrc
    have h2 : readChunksF (sp.2.length + 1 + extra.length) (sp.2 ++ extra) =
        .ok (cp.1, cp.2 ++ extra) :=
      readChunksF_mono (sp.2.length + 1) extra.length (sp.2 ++ extra) (cp.1, cp.2 ++ extra) h1
    have hlen : (sp.2 ++ extra).length + 1 = sp.2.length + 1 + extra.length := by
      rw [List.length_append]
      omega
    rw [hlen, h2, bindOkL]
    exact hfc
  · simp at h

def c10Inflate : List Nat → Option (List Nat) := fun _ => some [0, 10, 20, 30]

def c10Stream : List Nat :=
  PNG_SIGNATURE ++ mkChunk IHDR_TYPE [0, 0, 0, 1, 0, 0, 0, 1, 8, 2, 0, 0, 0] ++
    mkChunk IDAT_TYPE [7, 7] ++ mkChunk IEND_TYPE []

/-- Concrete instance of C10: a full valid 1×1 stream with three trailing
garbage bytes decodes exactly as without them. -/
theorem claim_C10_witness :
    Image.read c10Inflate (c10Stream ++ [1, 2, 3]) = .ok ⟨1, 1, .rgb, [[.rgb 10 20 30]]⟩ :=
  claim_C10_trailing_bytes_ignored c10Inflate c10Stream [1, 2, 3]
    ⟨1, 1, .rgb, [[.rgb 10 20 30]]⟩ (by decide)

/-! ## CRC-32 sensitivity to single-byte changes -/

theorem xor_right_cancel {a b p : Nat} (h : a ^^^ p = b ^^^ p) : a = b := by
  have h2 := congrArg (fun x => x ^^^ p) h
  simpa [Nat.xor_assoc] using h2

theorem xor_left_cancel {a b p : Nat} (h : p ^^^ a = p ^^^ b) : a = b := by
  have h2 := congrArg (fun x => p ^^^ x) h
  simpa [← Nat.xor_assoc] using h2

theorem crcStep_lt {s : Nat} (h : s < 2 ^ 32) : crcStep s < 2 ^ 32 := by
  unfold crcStep
  split
  · exact Nat.xor_lt_two_pow (by omega) (by decide)
  · omega

/-- For in-range states, the top bit of the next CRC state records the parity
of the current one: the polynomial has bit 31 set and the shifted state does
not. -/
theorem crcStep_high_iff {s : Nat} (hs : s < 2 ^ 32) :
    2 ^ 31 ≤ crcStep s ↔ s % 2 = 1 := by
  unfold crcStep
  split
  · next hodd =>
    refine ⟨fun _ => hodd, fun _ => ?_⟩
    have h1 : (s / 2).testBit 31 = false := Nat.testBit_lt_two_pow (by omega)
    have h2 : CRC_POLY.testBit 31 = true := by decide
    have h3 := Nat.testBit_xor (s / 2) CRC_POLY 31
    rw [h1, h2] at h3
    exact Nat.testBit_implies_ge (by simpa using h3)
  · next heven =>
    constructor
    · intro hge
      omega
    · intro h1
      exact absurd h1 heven

theorem crcStep_inj {s t : Nat} (hs : s < 2 ^ 32) (ht : t < 2 ^ 32)
    (h : crcStep s = crcStep t) : s = t := by
  have hpar : s % 2 = 1 ↔ t % 2 = 1 := by
    rw [← crcStep_high_iff hs, ← crcStep_high_iff ht, h]
  by_cases ho : s % 2 = 1
  · have ho2 : t % 2 = 1 := hpar.mp ho
    unfold crcStep at h
    rw [if_pos ho, if_pos ho2] at h
    have := xor_right_cancel h
    omega
  · have ho2 : ¬t % 2 = 1 := fun hx => ho (hpar.mpr hx)
    unfold crcStep at h
    rw [if_neg ho, if_neg ho2] at h
    omega

theorem crcStep_iter_lt (n : Nat) : ∀ {s : Nat}, s < 2 ^ 32 → crcStep^[n] s < 2 ^ 32 := by
  induction n with
  | zero => intro s hs; simpa using hs
  | succ n ih =>
    intro s hs
    rw [Function.iterate_succ_apply]
    exact ih (crcStep_lt hs)

theorem crcStep_iter_inj (n : Nat) : ∀ {s t : Nat}, s < 2 ^ 32 → t < 2 ^ 32 →
    crcStep^[n] s = crcStep^[n] t → s = t := by
  induction n with
  | zero => intro s t _ _ h; simpa using h
  | succ n ih =>
    intro s t hs ht h
    rw [Function.iterate_succ_apply, Function.iterate_succ_apply] at h
    exact crcStep_inj hs ht (ih (crcStep_lt hs) (crcStep_lt ht) h)

theorem crcByte_lt {s b : Nat} (hs : s < 2 ^ 32) (hb : b < 2 ^ 32) :
    crcByte s b < 2 ^ 32 :=
  crcStep_iter_lt 8 (Nat.xor_lt_two_pow hs hb)

theorem crcByte_inj {s t b : Nat} (hs : s < 2 ^ 32) (ht : t < 2 ^ 32) (hb : b < 2 ^ 32)
    (h : crcByte s b = crcByte t b) : s = t := by
  unfold crcByte at h
  exact xor_right_cancel
    (crcStep_iter_inj 8 (Nat.xor_lt_two_pow hs hb) (Nat.xor_lt_two_pow ht hb) h)

theorem crcByte_ne {s b1 b2 : Nat} (hs : s < 2 ^ 32) (hb1 : b1 < 2 ^ 32) (hb2 : b2 < 2 ^ 32)
    (hne : b1 ≠ b2) : crcByte s b1 ≠ crcByte s b2 := by
  intro h
  unfold crcByte at h
  exact hne (xor_left_cancel
    (crcStep_iter_inj 8 (Nat.xor_lt_two_pow hs hb1) (Nat.xor_lt_two_pow hs hb2) h))

theorem foldl_crc_lt (bs : List Nat) : ∀ {s : Nat}, (∀ x ∈ bs, x < 2 ^ 32) → s < 2 ^ 32 →
    bs.foldl crcByte s < 2 ^ 32 := by
  induction bs with
  | nil => intro s _ hs; simpa using hs
  | cons b bs ih =>
    intro s hbs hs
    rw [List.foldl_cons]
    exact ih (fun x hx => hbs x (by simp [hx])) (crcByte_lt hs (hbs b (by simp)))

theorem foldl_crc_ne (bs : List Nat) : ∀ {s t : Nat}, (∀ x ∈ bs, x < 2 ^ 32) →
    s < 2 ^ 32 → t < 2 ^ 32 → s ≠ t → bs.foldl crcByte s ≠ bs.foldl crcByte t := by
  induction bs with
  | nil => intro s t _ _ _ hne; simpa using hne
  | cons b bs ih =>
    intro s t hbs hs ht hne
    rw [List.foldl_cons, List.foldl_cons]
    have hb : b < 2 ^ 32 := hbs b (by simp)
    exact ih (fun x hx => hbs x (by simp [hx])) (crcByte_lt hs hb) (crcByte_lt ht hb)
      (fun hx => hne (crcByte_inj hs ht hb hx))

/-- Changing a single byte of a message always changes its CRC-32. -/
theorem crc32_byte_change_ne (pre post : List Nat) (b1 b2 : Nat)
    (hpre : ∀ x ∈ pre, x < 2 ^ 32) (hpost : ∀ x ∈ post, x < 2 ^ 32)
    (hb1 : b1 < 2 ^ 32) (hb2 : b2 < 2 ^ 32) (hne : b1 ≠ b2) :
    crc32 (pre ++ b1 :: post) ≠ crc32 (pre ++ b2 :: post) := by
  unfold crc32
  intro h
  have h2 := xor_right_cancel h
  rw [List.foldl_append, List.foldl_append, List.foldl_cons, List.foldl_cons] at h2
  have hs : pre.foldl crcByte 0xFFFFFFFF < 2 ^ 32 := foldl_crc_lt pre hpre (by decide)
  exact foldl_crc_ne post hpost (crcByte_lt hs hb1) (crcByte_lt hs hb2)
    (fun hx => hne (crcByte_ne hs hb1 hb2 hne hx).elim) h2

/-- Any list decomposes around one of its positions. -/
theorem take_getD_drop : ∀ (l : List Nat) (j : Nat), j < l.length →
    l.take j ++ l.getD j 0 :: l.drop (j + 1) = l := by
  intro l
  induction l with
  | nil => intro j hj; simp at hj
  | cons a l ih =>
    intro j hj
    cases j with
    | zero => simp
    | succ j =>
      simp only [List.take_succ_cons, List.drop_succ_cons, List.getD_cons_succ,
        List.cons_append, List.cons.injEq, true_and]
      exact ih j (by simpa using hj)

/-- Flipping any single bit of any byte of a message changes its CRC-32. -/
theorem crc32_flipByteAt_ne (l : List Nat) (j i : Nat) (hj : j < l.length) (hi : i < 8)
    (hl : ∀ x ∈ l, x < 256) : crc32 (flipByteAt l j i) ≠ crc32 l := by
  have hb : l.getD j 0 < 256 := by
    rw [List.getD_eq_getElem l 0 hj]
    exact hl _ (List.getElem_mem hj)
  have hflip : flipByteAt l j i = l.take j ++ (l.getD j 0 ^^^ 2 ^ i) :: l.drop (j + 1) := by
    unfold flipByteAt
    rw [List.set_eq_take_append_cons_drop, if_pos hj]
  have hpre : ∀ x ∈ l.take j, x < 2 ^ 32 := by
    intro x hx
    have := hl x (List.mem_of_mem_take hx)
    omega
  have hpost : ∀ x ∈ l.drop (j + 1), x < 2 ^ 32 := by
    intro x hx
    have := hl x (List.mem_of_mem_drop hx)
    omega
  have hb1 : l.getD j 0 ^^^ 2 ^ i < 2 ^ 32 := by
    have h2i : (2 : Nat) ^ i < 2 ^ 8 := Nat.pow_lt_pow_right (by omega) hi
    have hb8 : l.getD j 0 < 2 ^ 8 := by omega
    have := Nat.xor_lt_two_pow hb8 h2i
    omega
  have hne : l.getD j 0 ^^^ 2 ^ i ≠ l.getD j 0 := by
    intro hx
    have h0 : l.getD j 0 ^^^ 2 ^ i = l.getD j 0 ^^^ 0 := by simpa using hx
    have h00 : (2 : Nat) ^ i = 0 := xor_left_cancel h0
    exact absurd h00 (Nat.pos_iff_ne_zero.mp (Nat.two_pow_pos i))
  have key := crc32_byte_change_ne (l.take j) (l.drop (j + 1))
    (l.getD j 0 ^^^ 2 ^ i) (l.getD j 0) hpre hpost hb1 (by omega) hne
  have hrest : crc32 l = crc32 (l.take j ++ l.getD j 0 :: l.drop (j + 1)) := by
    rw [take_getD_drop l j hj]
  rw [hflip, hrest]
  exact key

/-! ## C6: CRC checking and bit flips -/

theorem mapErrL {ε α β : Type _} (f : α → β) (e : ε) :
    (Except.error e : Except ε α).map f = .error e := rfl

/-- Splitting an exact read across a concatenation. -/
theorem readExact_split (n : Nat) (l r : List Nat) (hn : n ≤ l.length) :
    readExact n (l ++ r) = .ok (l.take n, l.drop n ++ r) := by
  unfold readExact
  rw [if_pos (by simp; omega), List.take_append_of_le_length hn,
    List.drop_append_of_le_length hn]

theorem readExact_ok_len {n : Nat} {s : List Nat} {p : List Nat × List Nat}
    (h : readExact n s = .ok p) : n ≤ s.length ∧ p.2.length = s.length - n := by
  unfold readExact at h
  split at h
  · next hle =>
    obtain rfl : (s.take n, s.drop n) = p := by simpa using h
    exact ⟨hle, by simp⟩
  · simp at h

/-- A successful chunk read strictly consumes stream bytes (at least the 12
framing bytes). -/
theorem chunkRead_consumes {s s' : List Nat} {c? : Option Chunk}
    (h : Chunk.read s = .ok (c?, s')) : s'.length < s.length := by
  unfold Chunk.read at h
  obtain ⟨p1, h1, h⟩ := exceptBind_ok h
  obtain ⟨p2, h2, h⟩ := exceptBind_ok h
  obtain ⟨p3, h3, h⟩ := exceptBind_ok h
  obtain ⟨p4, h4, h⟩ := exceptBind_ok h
  obtain ⟨hle1, hl1⟩ := readExact_ok_len h1
  obtain ⟨hle2, hl2⟩ := readExact_ok_len h2
  obtain ⟨hle3, hl3⟩ := readExact_ok_len h3
  obtain ⟨hle4, hl4⟩ := readExact_ok_len h4
  have hs' : s' = p4.2 := by
    split at h
    · obtain ⟨c, hc, hcv⟩ := exceptMap_ok h
      have hp : (c, p4.2) = (c?, s') := hcv
      injection hp with hp1 hp2
      exact hp2.symm
    · simp at h
  subst hs'
  omega

/-- A chunk record whose stored CRC does not match the CRC-32 of its type
code and payload makes `Chunk.read` fail with `MismatchedCrc` — before the
type code is ever dispatched on. -/
theorem chunkRead_mismatch (lb F cb rest : List Nat)
    (hlb : lb.length = 4) (hF4 : 4 ≤ F.length) (hcb : cb.length = 4)
    (hlen : beU32 lb = F.length - 4)
    (hcrc : beU32 cb ≠ crc32 F) :
    Chunk.read (lb ++ (F ++ (cb ++ rest))) = .error (.err .mismatchedCrc) := by
  unfold Chunk.read
  rw [readExact_whole lb _ 4 hlb, bindOkL]
  dsimp only
  rw [readExact_split 4 F (cb ++ rest) hF4, bindOkL]
  dsimp only
  rw [hlen, readExact_whole (F.drop 4) (cb ++ rest) (F.length - 4) (by simp), bindOkL]
  dsimp only
  rw [readExact_whole cb rest 4 hcb, bindOkL]
  dsimp only
  rw [List.take_append_drop, if_neg hcrc]

/-- The chunk loop walks from stream position `s` to position `tgt` in `n`
successful, non-terminator chunk reads. -/
inductive LeadsToN : Nat → List Nat → List Nat → Prop where
  | refl (s : List Nat) : LeadsToN 0 s s
  | step {n : Nat} {s s' tgt : List Nat} (c? : Option Chunk)
      (hread : Chunk.read s = .ok (c?, s'))
      (hni : c? ≠ some Chunk.iend)
      (htail : LeadsToN n s' tgt) : LeadsToN (n + 1) s tgt

theorem leadsToN_le {n : Nat} {s tgt : List Nat} (h : LeadsToN n s tgt) :
    n + tgt.length ≤ s.length := by
  induction h with
  | refl s => omega
  | step c? hread hni htail ih =>
    have := chunkRead_consumes hread
    omega

/-- An error of the chunk loop at a later stream position propagates to the
whole loop, with the fuel spent on the walk added. -/
theorem readChunksF_err_propagate {e : Failure} :
    ∀ {n : Nat} {s tgt : List Nat}, LeadsToN n s tgt →
    ∀ {f : Nat}, readChunksF f tgt = .error e → readChunksF (n + f) s = .error e := by
  intro n s tgt h
  induction h with
  | refl s =>
    intro f hf
    simpa using hf
  | step c? hread hni htail ih =>
    next n _ _ _ =>
      intro f hf
      have hf' := ih hf
      have heq : n + 1 + f = (n + f) + 1 := by omega
      rw [heq]
      unfold readChunksF
      rw [hread]
      cases c? with
      | none => exact hf'
      | some c =>
        have hcne : c ≠ Chunk.iend := fun hh => hni (by rw [hh])
        dsimp only
        rw [if_neg hcne, hf', mapErrL]

theorem readChunksF_err_head {f : Nat} {tgt : List Nat} {e : Failure} (hf : 1 ≤ f)
    (h : Chunk.read tgt = .error e) : readChunksF f tgt = .error e := by
  match f, hf with
  | f + 1, _ =>
    unfold readChunksF
    rw [h]

/-- C6: for every chunk record whose 4-byte CRC field holds the CRC-32 of its
type code and payload, flipping any single bit of any byte of the type code
or payload (without recomputing the CRC) makes `Chunk.read` fail with
`MismatchedCrc` — the CRC is compared before the chunk is interpreted — and
makes the whole decode of any stream that reaches this record fail with
`MismatchedCrc`, whatever the decompressor does. -/
theorem claim_C6_crc_bit_flip (inflate : List Nat → Option (List Nat))
    (lb tb data cb rest s0 : List Nat) (j i n : Nat)
    (hlb : lb.length = 4) (htb : tb.length = 4) (hcb : cb.length = 4)
    (hlen : beU32 lb = data.length)
    (hbytes : ∀ x ∈ tb ++ data, x < 256)
    (hcrc : beU32 cb = crc32 (tb ++ data))
    (hj : j < (tb ++ data).length) (hi : i < 8)
    (hlead : LeadsToN n s0 (lb ++ (flipByteAt (tb ++ data) j i ++ (cb ++ rest)))) :
    Chunk.read (lb ++ (flipByteAt (tb ++ data) j i ++ (cb ++ rest))) =
      .error (.err .mismatchedCrc) ∧
    Image.read inflate (PNG_SIGNATURE ++ s0) = .error (.err .mismatchedCrc) := by
  have hflen : (flipByteAt (tb ++ data) j i).length = 4 + data.length := by
    simp [flipByteAt, htb]
  have hcrcne : beU32 cb ≠ crc32 (flipByteAt (tb ++ data) j i) := by
    rw [hcrc]
    exact fun hx => (crc32_flipByteAt_ne (tb ++ data) j i hj hi hbytes) hx.symm
  have hpart1 : Chunk.read (lb ++ (flipByteAt (tb ++ data) j i ++ (cb ++ rest))) =
      .error (.err .mismatchedCrc) :=
    chunkRead_mismatch lb _ cb rest hlb (by omega) hcb (by omega) hcrcne
  refine ⟨hpart1, ?_⟩
  unfold Image.read
  rw [readExact_whole PNG_SIGNATURE s0 8 rfl, bindOkL]
  dsimp only
  rw [if_pos rfl]
  have hnle : n ≤ s0.length := by
    have := leadsToN_le hlead
    omega
  have herr : readChunksF (n + (s0.length + 1 - n)) s0 = .error (.err .mismatchedCrc) :=
    readChunksF_err_propagate hlead (readChunksF_err_head (by omega) hpart1)
  rw [show s0.length + 1 = n + (s0.length + 1 - n) from by omega, herr, bindErrL]

def c6Flipped : List Nat :=
  [0, 0, 0, 0] ++ (flipByteAt (IEND_TYPE ++ []) 0 0 ++ (be32enc (crc32 (IEND_TYPE ++ [])) ++ []))

/-- Concrete instance of C6: an empty-payload terminator chunk with correct
CRC, where the first byte of the type code has its lowest bit flipped. -/
theorem claim_C6_witness :
    Chunk.read c6Flipped = .error (.err .mismatchedCrc) ∧
    Image.read (fun _ => none) (PNG_SIGNATURE ++ c6Flipped) = .error (.err .mismatchedCrc) :=
  claim_C6_crc_bit_flip (fun _ => none) [0, 0, 0, 0] IEND_TYPE []
    (be32enc (crc32 (IEND_TYPE ++ []))) [] c6Flipped 0 0 0 rfl rfl rfl (by decide)
    (by decide) (by decide) (by decide) (by decide) (LeadsToN.refl c6Flipped)
